import Mathlib

/-!
A shallow embedding of the λΠ interpreter from `pi-lib` (files `eval.rs`,
`env.rs`, `clos.rs`, `ast.rs`, `parse.rs`).  Rust `usize` indices become `Nat`;
fallible Rust functions returning `EvalResult` become `Except EvalError`;
the general-recursive evaluator, quoter and checker are fuel-indexed
(`none` means the fuel ran out or the source panicked — `expect`, `todo!`,
or `usize` underflow).  The persistent list `Ctx<T>` of `env.rs` (whose
`push` prepends and whose iterator runs newest-first) is embedded as `List`.
Host closures (`clos.rs`) are defunctionalized: the only closures the
library ever constructs capture a body term together with an `EvalCtx`
and, when called, push the argument onto the bounded-index stack and
re-invoke the evaluator, so a closure is embedded as exactly that data.
The data type declarations (`term.rs`, `err.rs` of `pi-lib`) are
reconstructed from every constructor used by the code present under
`src/pi-lib` and from §3 of the specification; variants that the present
code never constructs and only reaches through `todo!()` arms are omitted.
-/

/-- Variable names: `VariableName` of `term.rs` (`Global`, `Local`, `Quote`). -/
inductive VariableName : Type where
  | Global (s : String)
  | Local (k : Nat)
  | Quote (k : Nat)
deriving DecidableEq, Repr

instance : BEq VariableName := ⟨fun a b => decide (a = b)⟩

/-- Errors: `EvalError` of `err.rs`.  Payload strings built by `format!` in the
source are embedded as fixed descriptive strings (the interpolated debug
output is not reproduced; no claim depends on it). -/
inductive EvalError : Type where
  | UnboundVariable (msg : String)
  | TypeMismatch (msg : String)
  | FileNotFound (msg : String)
  | ParseError (msg : String)
deriving DecidableEq, Repr

mutual
/-- Inferable terms: `Term` of `term.rs` as used by `eval.rs`. -/
inductive Term : Type where
  | AnnotatedTerm (term ty : CheckableTerm)
  | Var (name : VariableName)
  | Bounded (idx : Nat)
  | App (clos : Term) (arg : CheckableTerm)
  | DependentFunctionSpace (arg ret : CheckableTerm)
  | Universe
  | Nat
  | Zero
  | Succ (pred : Term)

/-- Checkable terms: `CheckableTerm` of `term.rs` as used by `eval.rs`. -/
inductive CheckableTerm : Type where
  | InfereableTerm (term : Term)
  | Lambda (term : CheckableTerm)
  | Succ (term : CheckableTerm)
  | Zero
end

mutual
/-- Semantic values: `Value` of `term.rs`. -/
inductive Value : Type where
  | VNeutral (n : Neutral)
  | VAbs (clos : Clos)
  | VUniverse
  | VPi (val : Value) (body : Clos)
  | VNat
  | VZero
  | VSucc (pred : Value)

/-- Neutrals: `Neutral` of `term.rs`. -/
inductive Neutral : Type where
  | NVar (name : VariableName)
  | NApp (clos : Neutral) (arg : Value)

/-- A defunctionalized `Closure<Value, EvalCtx, Value>` (`clos.rs`): the two
closure constructions in `eval.rs` (`eval_checked` on `Lambda`, `eval` on
`DependentFunctionSpace`) both capture a body term and an `EvalCtx`
(`env0` = the named-value list `ctx.0`, `env1` = the bounded stack `ctx.1`)
and, when called, push the argument onto the bounded stack and evaluate
the body. -/
inductive Clos : Type where
  | mk (term : CheckableTerm) (env0 : List (VariableName × Value)) (env1 : List Value)
end

/-- `Type` of `term.rs` is an alias for `Value`. -/
abbrev Ty : Type := Value

/-- `EvalCtx` of `env.rs`: names-to-values, and the bounded-index stack.
`Ctx::push` prepends, so the head of each list is the newest entry. -/
abbrev EvalCtx : Type := List (VariableName × Value) × List Value

/-- `TypeCtx` of `env.rs`: names-to-definitions and names-to-types. -/
abbrev TypeCtx : Type := List (VariableName × Value) × List (VariableName × Ty)

/-- The `From<TypeCtx> for EvalCtx` impl of `env.rs`: keeps `ctx.0` and folds
the types of `ctx.1` (newest first) onto the bounded stack with `push`,
which reverses their order. -/
def typeCtxToEvalCtx (ctx : TypeCtx) : EvalCtx :=
  (ctx.1, ctx.2.foldl (fun acc p => p.2 :: acc) [])

mutual
/-- `subst` of `eval.rs`: substitute `t_what` for de Bruijn index
`de_brujin_index` inside an inferable term. -/
def subst (de_brujin_index : Nat) (t_what : Term) : Term → Term
  | .AnnotatedTerm term ty =>
      .AnnotatedTerm (subst_checked de_brujin_index t_what term)
        (subst_checked de_brujin_index t_what ty)
  | .Bounded idx => if idx = de_brujin_index then t_what else .Bounded idx
  | .Var name => .Var name
  | .App clos arg =>
      .App (subst de_brujin_index t_what clos)
        (subst_checked de_brujin_index t_what arg)
  | .Universe => .Universe
  | .DependentFunctionSpace arg ret =>
      .DependentFunctionSpace (subst_checked de_brujin_index t_what arg)
        (subst_checked (de_brujin_index + 1) t_what ret)
  | .Zero => .Zero
  | .Nat => .Nat
  | .Succ pred => .Succ (subst de_brujin_index t_what pred)

/-- `subst_checked` of `eval.rs`: substitution on checkable terms; the
`Lambda` case increments the index. -/
def subst_checked (de_brujin_index : Nat) (t_what : Term) : CheckableTerm → CheckableTerm
  | .InfereableTerm term => .InfereableTerm (subst de_brujin_index t_what term)
  | .Lambda term => .Lambda (subst_checked (de_brujin_index + 1) t_what term)
  | .Succ term => .Succ (subst_checked de_brujin_index t_what term)
  | .Zero => .Zero
end

/-- `lookup` of `eval.rs`: while the value is a neutral variable bound in the
typing context and attempts remain, replace it by its recorded type.  The
source wraps the result in `Ok`; no error path exists, so the embedding
returns the value directly. -/
def lookup (term : Value) (ctx : List (VariableName × Ty)) : Nat → Value
  | 0 => term
  | attempt + 1 =>
      match term with
      | .VNeutral (.NVar name) =>
          match ctx.find? (fun p => p.1 == name) with
          | some (_, ty) => lookup ty ctx attempt
          | none => term
      | _ => term

/-- `num_to_succ` of `ast.rs`. -/
def num_to_succ : Nat → Term
  | 0 => .Zero
  | n + 1 => .Succ (num_to_succ n)

deriving instance DecidableEq for CheckableTerm

instance : BEq CheckableTerm := ⟨fun a b => decide (a = b)⟩

instance : LawfulBEq VariableName :=
  ⟨fun h => of_decide_eq_true h, fun {_} => decide_eq_true rfl⟩

/-- The typing context of the C2 counterexample: `x` is declared with the
neutral type `A`, and `A` is declared with type `Universe`. -/
def c2Ctx : TypeCtx :=
  ([], [(VariableName.Global "x", Value.VNeutral (.NVar (.Global "A"))),
        (VariableName.Global "A", Value.VUniverse)])

/-- The stack of quotation probes `[Quote(d-1), …, Quote(0)]` (newest first)
under which a term quoted at depth `d` is re-evaluated. -/
def probe_stack : Nat → List Value
  | 0 => []
  | d + 1 => .VNeutral (.NVar (.Quote d)) :: probe_stack d

mutual
/-- `eval` of `eval.rs`, fuel-indexed (`none` = out of fuel or panic). -/
def eval : Nat → Term → EvalCtx → Option (Except EvalError Value)
  | 0, _, _ => none
  | fuel + 1, term, ctx =>
    match term with
    | .AnnotatedTerm term _ => eval_checked fuel term ctx
    | .DependentFunctionSpace arg ret =>
        match eval_checked fuel arg ctx with
        | none => none
        | some (.error e) => some (.error e)
        | some (.ok val) => some (.ok (.VPi val (.mk ret ctx.1 ctx.2)))
    | .Var x =>
        match ctx.1.find? (fun p => p.1 == x) with
        | some (_, val) => some (.ok val)
        | none => some (.ok (.VNeutral (.NVar x)))
    | .Bounded idx =>
        match ctx.2[idx]? with
        | some val => some (.ok val)
        | none =>
            some (.error (.UnboundVariable
              ("Variable at index " ++ toString idx ++ " is not found in the context")))
    | .App clos arg =>
        match eval fuel clos ctx with
        | none => none
        | some (.error e) => some (.error e)
        | some (.ok closv) =>
            match eval_checked fuel arg ctx with
            | none => none
            | some (.error e) => some (.error e)
            | some (.ok argv) => val_app fuel closv argv
    | .Universe => some (.ok .VUniverse)
    | .Zero => some (.ok .VZero)
    | .Nat => some (.ok .VNat)
    | .Succ pred =>
        match eval fuel pred ctx with
        | none => none
        | some (.error e) => some (.error e)
        | some (.ok predv) => some (.ok (.VSucc predv))

/-- `eval_checked` of `eval.rs`, fuel-indexed. -/
def eval_checked : Nat → CheckableTerm → EvalCtx → Option (Except EvalError Value)
  | 0, _, _ => none
  | fuel + 1, term, ctx =>
    match term with
    | .InfereableTerm term => eval fuel term ctx
    | .Lambda term => some (.ok (.VAbs (.mk term ctx.1 ctx.2)))
    | .Succ term =>
        match eval_checked fuel term ctx with
        | none => none
        | some (.error e) => some (.error e)
        | some (.ok pred) => some (.ok (.VSucc pred))
    | .Zero => some (.ok .VZero)

/-- `Closure::call` of `clos.rs` for the defunctionalized closures: push the
argument onto the bounded stack of the captured context and evaluate the body. -/
def clos_call : Nat → Clos → Value → Option (Except EvalError Value)
  | 0, _, _ => none
  | fuel + 1, .mk term env0 env1, x => eval_checked fuel term (env0, x :: env1)

/-- `val_app` of `eval.rs`: semantic application. -/
def val_app : Nat → Value → Value → Option (Except EvalError Value)
  | 0, _, _ => none
  | fuel + 1, clos, arg =>
    match clos with
    | .VAbs c => clos_call fuel c arg
    | .VNeutral n => some (.ok (.VNeutral (.NApp n arg)))
    | _ => some (.error (.TypeMismatch "Cannot apply a non-function value"))

/-- `lift` of `eval.rs` (quotation).  The source returns a bare
`CheckableTerm` and panics (`.expect`) when a closure call fails; the
embedding returns `none` in that case (and on fuel exhaustion). -/
def lift : Nat → Nat → Value → Option CheckableTerm
  | 0, _, _ => none
  | fuel + 1, de_brujin_index, val =>
    match val with
    | .VAbs clos =>
        match clos_call fuel clos (.VNeutral (.NVar (.Quote de_brujin_index))) with
        | some (.ok body) =>
            match lift fuel (de_brujin_index + 1) body with
            | some t => some (.Lambda t)
            | none => none
        | _ => none
    | .VNeutral n =>
        match lift_neutral fuel de_brujin_index n with
        | some t => some (.InfereableTerm t)
        | none => none
    | .VUniverse => some (.InfereableTerm .Universe)
    | .VPi val body =>
        match lift fuel de_brujin_index val with
        | none => none
        | some arg =>
            match clos_call fuel body (.VNeutral (.NVar (.Quote de_brujin_index))) with
            | some (.ok b) =>
                match lift fuel (de_brujin_index + 1) b with
                | some ret => some (.InfereableTerm (.DependentFunctionSpace arg ret))
                | none => none
            | _ => none
    | .VZero => some .Zero
    | .VSucc pred =>
        match lift fuel de_brujin_index pred with
        | some t => some (.Succ t)
        | none => none
    | .VNat => some (.InfereableTerm .Nat)

/-- `lift_neutral` of `eval.rs`.  The `Quote` case computes
`de_brujin_index - idx - 1` on `usize`; when `idx ≥ de_brujin_index` that
subtraction underflows and the source panics, embedded as `none`. -/
def lift_neutral : Nat → Nat → Neutral → Option Term
  | 0, _, _ => none
  | fuel + 1, de_brujin_index, n =>
    match n with
    | .NApp clos arg =>
        match lift_neutral fuel de_brujin_index clos with
        | none => none
        | some c =>
            match lift fuel de_brujin_index arg with
            | none => none
            | some a => some (.App c a)
    | .NVar name =>
        match name with
        | .Quote idx =>
            if idx < de_brujin_index
            then some (.Bounded (de_brujin_index - idx - 1))
            else none
        | _ => some (.Var name)

/-- `type_check` of `eval.rs` (the `infer` direction), fuel-indexed.  The
`Bounded` case falls into the source's `_ => todo!()` arm, a panic,
embedded as `none`. -/
def type_check : Nat → Nat → Term → TypeCtx → Option (Except EvalError Ty)
  | 0, _, _, _ => none
  | fuel + 1, de_brujin_index, term, ctx =>
    match term with
    | .AnnotatedTerm term ty =>
        match sanity_check fuel de_brujin_index ty ctx .VUniverse with
        | none => none
        | some (.error e) => some (.error e)
        | some (.ok _) =>
            match eval_checked fuel ty (ctx.1, []) with
            | none => none
            | some (.error e) => some (.error e)
            | some (.ok tyv) =>
                match sanity_check fuel de_brujin_index term ctx tyv with
                | none => none
                | some (.error e) => some (.error e)
                | some (.ok _) => some (.ok tyv)
    | .Universe => some (.ok .VUniverse)
    | .DependentFunctionSpace arg ret =>
        match sanity_check fuel de_brujin_index arg ctx .VUniverse with
        | none => none
        | some (.error e) => some (.error e)
        | some (.ok _) =>
            match eval_checked fuel arg (ctx.1, []) with
            | none => none
            | some (.error e) => some (.error e)
            | some (.ok arg_ty) =>
                let ctx' := (ctx.1, (VariableName.Local de_brujin_index, arg_ty) :: ctx.2)
                let substituted :=
                  subst_checked 0 (.Var (.Local de_brujin_index)) ret
                match sanity_check fuel (de_brujin_index + 1) substituted ctx' .VUniverse with
                | none => none
                | some (.error e) => some (.error e)
                | some (.ok _) => some (.ok .VUniverse)
    | .Var name =>
        match ctx.2.find? (fun p => p.1 == name) with
        | some (_, val) => some (.ok val)
        | none =>
            some (.error (.UnboundVariable "Variable is not found in the context"))
    | .App clos arg =>
        match type_check fuel de_brujin_index clos ctx with
        | none => none
        | some (.error e) => some (.error e)
        | some (.ok ty) =>
            match ty with
            | .VPi val body =>
                match sanity_check fuel de_brujin_index arg ctx val with
                | none => none
                | some (.error e) => some (.error e)
                | some (.ok _) =>
                    match eval_checked fuel arg (typeCtxToEvalCtx ctx) with
                    | none => none
                    | some (.error e) => some (.error e)
                    | some (.ok argv) => clos_call fuel body argv
            | _ => some (.error (.TypeMismatch "Expected a dependent function"))
    | .Nat => some (.ok .VUniverse)
    | .Zero => some (.ok .VNat)
    | .Succ pred =>
        match type_check fuel de_brujin_index pred ctx with
        | none => none
        | some (.error e) => some (.error e)
        | some (.ok pred_ty) =>
            match pred_ty with
            | .VNat => some (.ok .VNat)
            | _ => some (.error (.TypeMismatch "Expected a natural number"))
    | .Bounded _ => none

/-- `sanity_check` of `eval.rs` (the `check` direction), fuel-indexed. -/
def sanity_check : Nat → Nat → CheckableTerm → TypeCtx → Ty → Option (Except EvalError Unit)
  | 0, _, _, _, _ => none
  | fuel + 1, de_brujin_index, term, ctx, ty =>
    match term with
    | .Zero => some (.ok ())
    | .InfereableTerm term =>
        match type_check fuel de_brujin_index term ctx with
        | none => none
        | some (.error e) => some (.error e)
        | some (.ok v) =>
            let val := lookup v ctx.2 128
            let ty' := lookup ty ctx.2 128
            match lift fuel 0 val with
            | none => none
            | some lhs =>
                match lift fuel 0 ty' with
                | none => none
                | some rhs =>
                    if lhs ≠ rhs
                    then some (.error (.TypeMismatch "Type mismatch"))
                    else some (.ok ())
    | .Lambda term =>
        match ty with
        | .VPi val body =>
            let substituted :=
              subst_checked 0 (.Var (.Local de_brujin_index)) term
            let ctx' := (ctx.1, (VariableName.Local de_brujin_index, val) :: ctx.2)
            match clos_call fuel body (.VNeutral (.NVar (.Local de_brujin_index))) with
            | none => none
            | some (.error e) => some (.error e)
            | some (.ok tyv) => sanity_check fuel (de_brujin_index + 1) substituted ctx' tyv
        | _ => some (.error (.TypeMismatch "Expected a dependent function"))
    | .Succ term =>
        match eval_checked fuel term ([], []) with
        | none => none
        | some (.error e) => some (.error e)
        | some (.ok val) =>
            match val with
            | .VZero => some (.ok ())
            | .VSucc pred =>
                match lift fuel de_brujin_index pred with
                | none => none
                | some predl =>
                    match lift fuel de_brujin_index .VNat with
                    | none => none
                    | some predr =>
                        if predl = predr
                        then some (.ok ())
                        else some (.error (.TypeMismatch "Type mismatch"))
            | _ =>
                some (.error (.TypeMismatch "Expected a natural number or a successor"))
end

/-- AST nodes: `AstNode` of `ast.rs` as used by `ast_transform` (the
`Type` basic-type variant, reachable only through the `todo!()` arm, is
omitted). -/
inductive AstNode : Type where
  | AnnotatedTerm (term ty : AstNode)
  | App (clos arg : AstNode)
  | Nat
  | Succ (pred : AstNode)
  | Num (n : Nat)
  | Var (name : String)
  | Universe
  | Lambda (arg : String) (body : AstNode)
  | DependentFunctionSpace (arg ret : AstNode)
  | Forall (args : List AstNode) (ret : AstNode)

/-- Statements: `Statement` of `ast.rs`. -/
inductive Statement : Type where
  | Eval (e : AstNode)
  | Check (e : AstNode)
  | Declare (ident : String) (ty : AstNode)
  | Let (ident : String) (rhs : AstNode)

mutual
/-- `ast_transform` of `ast.rs`, fuel-indexed: lower an AST node in
inferable position.  `symbols` is the lexical stack of binder names
(`Vec::push` appends, so the innermost binder is last; the `Var` case
searches the reversed stack). -/
def ast_transform : Nat → AstNode → List String → Option (Except EvalError Term)
  | 0, _, _ => none
  | fuel + 1, ast, symbols =>
    match ast with
    | .Universe => some (.ok .Universe)
    | .Nat => some (.ok .Nat)
    | .Succ pred =>
        match ast_transform fuel pred symbols with
        | none => none
        | some (.error e) => some (.error e)
        | some (.ok pred) => some (.ok (.Succ pred))
    | .AnnotatedTerm term ty =>
        match ast_transform_checkable fuel term symbols with
        | none => none
        | some (.error e) => some (.error e)
        | some (.ok t) =>
            match ast_transform_checkable fuel ty symbols with
            | none => none
            | some (.error e) => some (.error e)
            | some (.ok ty) => some (.ok (.AnnotatedTerm t ty))
    | .Var name =>
        match symbols.reverse.findIdx? (fun x => x == name) with
        | some index => some (.ok (.Bounded index))
        | none => some (.ok (.Var (.Global name)))
    | .Lambda _ _ =>
        some (.error (.ParseError "Cannot parse lambda without type annotation."))
    | .App clos arg =>
        match ast_transform fuel clos symbols with
        | none => none
        | some (.error e) => some (.error e)
        | some (.ok clos) =>
            match ast_transform_checkable fuel arg symbols with
            | none => none
            | some (.error e) => some (.error e)
            | some (.ok arg) => some (.ok (.App clos arg))
    | .DependentFunctionSpace arg ret =>
        match ast_transform_checkable fuel arg symbols with
        | none => none
        | some (.error e) => some (.error e)
        | some (.ok arg) =>
            match ast_transform_checkable fuel ret symbols with
            | none => none
            | some (.error e) => some (.error e)
            | some (.ok ret) => some (.ok (.DependentFunctionSpace arg ret))
    | .Num num =>
        some (.ok (.AnnotatedTerm
          (.InfereableTerm (num_to_succ num))
          (.InfereableTerm .Nat)))
    | .Forall args ret => build_forall_binding_list fuel args ret symbols

/-- `ast_transform_checkable` of `ast.rs`, fuel-indexed: a `Lambda` lowers
to a checkable `Lambda` (pushing its binder name); anything else lowers in
inferable position and is wrapped in `InfereableTerm`. -/
def ast_transform_checkable : Nat → AstNode → List String → Option (Except EvalError CheckableTerm)
  | 0, _, _ => none
  | fuel + 1, ast, symbols =>
    match ast with
    | .Lambda arg body =>
        match ast_transform_checkable fuel body (symbols ++ [arg]) with
        | none => none
        | some (.error e) => some (.error e)
        | some (.ok body) => some (.ok (.Lambda body))
    | _ =>
        match ast_transform fuel ast symbols with
        | none => none
        | some (.error e) => some (.error e)
        | some (.ok t) => some (.ok (.InfereableTerm t))

/-- `build_forall_binding_list` of `ast.rs`, fuel-indexed. -/
def build_forall_binding_list :
    Nat → List AstNode → AstNode → List String → Option (Except EvalError Term)
  | 0, _, _, _ => none
  | fuel + 1, bindings, ret, symbols =>
    match bindings with
    | [] => some (.error (.ParseError "Cannot parse empty forall binding list."))
    | first :: rest =>
        match first with
        | .AnnotatedTerm (.Var x) ty =>
            match ast_transform fuel ty symbols with
            | none => none
            | some (.error e) => some (.error e)
            | some (.ok tyt) =>
                let arg := CheckableTerm.InfereableTerm tyt
                let symbols := symbols ++ [x]
                match
                  (match rest with
                   | [] => ast_transform fuel ret symbols
                   | _ => build_forall_binding_list fuel rest ret symbols) with
                | none => none
                | some (.error e) => some (.error e)
                | some (.ok rett) =>
                    some (.ok (.DependentFunctionSpace arg (.InfereableTerm rett)))
        | _ => some (.error (.ParseError "Cannot parse forall binding list."))

end

/-- `handle_statement` of `parse.rs`.  The Rust function takes `&mut TypeCtx`;
the embedding returns the resulting context alongside the result, leaving it
unchanged on every error path (the source only pushes onto the context after
all fallible calls have succeeded).  `Eval` and `Check` share one match arm
in the source (`Statement::Eval(e) | Statement::Check(e)`). -/
def handle_statement (fuel : Nat) (stmt : Statement) (ctx : TypeCtx) :
    Option (Except EvalError Value × TypeCtx) :=
  match stmt with
  | .Eval e | .Check e =>
      match ast_transform fuel e [] with
      | none => none
      | some (.error er) => some (.error er, ctx)
      | some (.ok term) =>
          match type_check fuel 0 term ctx with
          | none => none
          | some (.error er) => some (.error er, ctx)
          | some (.ok _) =>
              match eval fuel term (typeCtxToEvalCtx ctx) with
              | none => none
              | some (.error er) => some (.error er, ctx)
              | some (.ok v) => some (.ok v, ctx)
  | .Declare ident ty =>
      match ast_transform fuel ty [] with
      | none => none
      | some (.error er) => some (.error er, ctx)
      | some (.ok term) =>
          match type_check fuel 0 term ctx with
          | none => none
          | some (.error er) => some (.error er, ctx)
          | some (.ok _) =>
              match sanity_check fuel 0 (.InfereableTerm term) ctx .VUniverse with
              | none => none
              | some (.error er) => some (.error er, ctx)
              | some (.ok _) =>
                  match eval fuel term (typeCtxToEvalCtx ctx) with
                  | none => none
                  | some (.error er) => some (.error er, ctx)
                  | some (.ok v) =>
                      some (.ok v, (ctx.1, (VariableName.Global ident, v) :: ctx.2))
  | .Let ident rhs =>
      match ast_transform fuel rhs [] with
      | none => none
      | some (.error er) => some (.error er, ctx)
      | some (.ok term) =>
          match type_check fuel 0 term ctx with
          | none => none
          | some (.error er) => some (.error er, ctx)
          | some (.ok ty) =>
              match eval fuel term (typeCtxToEvalCtx ctx) with
              | none => none
              | some (.error er) => some (.error er, ctx)
              | some (.ok v) =>
                  some (.ok v,
                    ((VariableName.Global ident, v) :: ctx.1,
                     (VariableName.Global ident, ty) :: ctx.2))

/-- C1: the claim states that `check` on `Zero` succeeds only against `VNat`,
and on `Succ(t)` only against `VNat` with `t` itself checked against `VNat`,
failing with `TypeMismatch` against any other expected type.  The code does
otherwise: `sanity_check` accepts `Zero` against `VUniverse`, rejects the
well-typed `Succ (Succ Zero)` against `VNat` with `TypeMismatch`, and
accepts `Succ Zero` against `VUniverse`. -/
theorem c1_sanity_check_zero_succ_code_bug :
    sanity_check 10 0 .Zero ([], []) .VUniverse = some (.ok ())
    ∧ sanity_check 10 0 (.Succ (.Succ .Zero)) ([], []) .VNat
        = some (.error (.TypeMismatch "Type mismatch"))
    ∧ sanity_check 10 0 (.Succ .Zero) ([], []) .VUniverse = some (.ok ()) :=
  ⟨rfl, rfl, rfl⟩

/-- C3 (amended): `Check(t)` is handled identically to `Eval(t)` in every
respect — both type-check `t` and report the evaluated value; the inferred
type is not what is reported. -/
theorem c3_check_identical_to_eval (fuel : Nat) (e : AstNode) (ctx : TypeCtx) :
    handle_statement fuel (.Check e) ctx = handle_statement fuel (.Eval e) ctx := rfl

/-- C3 (counterexample): for the statement `Check(0)` the driver reports the
value `VZero`, although the type inferred for the lowered term is `VNat`
and differs from it — `Check` does not report the type. -/
theorem c3_check_reports_value_not_type :
    handle_statement 20 (.Check (.Num 0)) ([], []) = some (.ok .VZero, ([], []))
    ∧ type_check 20 0 (.AnnotatedTerm (.InfereableTerm .Zero) (.InfereableTerm .Nat)) ([], [])
        = some (.ok .VNat)
    ∧ Value.VZero ≠ Value.VNat :=
  ⟨rfl, rfl, by intro h; exact Value.noConfusion h⟩

/-- C9: lowering an AST whose outermost node in inferable position is an
unannotated lambda fails with `ParseError`, and the driver therefore fails
before type checking is reached, leaving the context unchanged; a lambda in
checkable position (here under a type annotation) lowers successfully. -/
theorem c9_unannotated_lambda_parse_error (fuel : Nat) (arg : String) (body : AstNode)
    (symbols : List String) (ctx : TypeCtx) :
    ast_transform (fuel + 1) (.Lambda arg body) symbols
      = some (.error (.ParseError "Cannot parse lambda without type annotation."))
    ∧ handle_statement (fuel + 1) (.Eval (.Lambda arg body)) ctx
      = some (.error (.ParseError "Cannot parse lambda without type annotation."), ctx)
    ∧ ast_transform_checkable (fuel + 1) (.Lambda arg body) symbols
      = (match ast_transform_checkable fuel body (symbols ++ [arg]) with
         | none => none
         | some (.error e) => some (.error e)
         | some (.ok b) => some (.ok (.Lambda b)))
    ∧ ast_transform 10 (.AnnotatedTerm (.Lambda "x" (.Var "x"))
          (.DependentFunctionSpace .Nat .Nat)) []
      = some (.ok (.AnnotatedTerm (.Lambda (.InfereableTerm (.Bounded 0)))
          (.InfereableTerm (.DependentFunctionSpace (.InfereableTerm .Nat)
            (.InfereableTerm .Nat))))) :=
  ⟨rfl, rfl, rfl, rfl⟩

/-- C5: substitution on `Pi(dom, cod)` substitutes in the domain at index
`i` and in the codomain at index `i + 1`; on `Lam(body)` it substitutes at
`i + 1`; `Bounded(i)` becomes the substitutend unchanged (no index
shifting), and `Bounded(j)` with `j ≠ i` is left alone. -/
theorem c5_subst_spec (i j : Nat) (s : Term) (dom cod body : CheckableTerm)
    (h : j ≠ i) :
    subst i s (.DependentFunctionSpace dom cod)
      = .DependentFunctionSpace (subst_checked i s dom) (subst_checked (i + 1) s cod)
    ∧ subst_checked i s (.Lambda body) = .Lambda (subst_checked (i + 1) s body)
    ∧ subst i s (.Bounded i) = s
    ∧ subst i s (.Bounded j) = .Bounded j := by
  refine ⟨rfl, rfl, ?_, ?_⟩
  · simp [subst]
  · simp [subst, h]

/-- Witness for C5 at a concrete instance. -/
theorem c5_subst_spec_witness :
    (1 : Nat) ≠ 0
    ∧ subst 0 (.Var (.Local 7)) (.Bounded 0) = .Var (.Local 7)
    ∧ subst 0 (.Var (.Local 7)) (.Bounded 1) = .Bounded 1 :=
  ⟨by decide,
   (c5_subst_spec 0 1 (.Var (.Local 7)) .Zero .Zero .Zero (by decide)).2.2.1,
   (c5_subst_spec 0 1 (.Var (.Local 7)) .Zero .Zero .Zero (by decide)).2.2.2⟩

/-- C4: quotation of neutrals maps `NFree(Quote(k))` with `k < d` to
`Bounded (d - k - 1)`, leaves `NFree(Global s)` and `NFree(Local k)` as the
corresponding `Free`-variable terms, and maps `NApp(n, v)` to the
application of `quote_neutral(d, n)` to `quote(d, v)`. -/
theorem c4_lift_neutral_spec (fuel d k : Nat) (s : String) (n : Neutral) (v : Value)
    (h : k < d) :
    lift_neutral (fuel + 1) d (.NVar (.Quote k)) = some (.Bounded (d - k - 1))
    ∧ lift_neutral (fuel + 1) d (.NVar (.Global s)) = some (.Var (.Global s))
    ∧ lift_neutral (fuel + 1) d (.NVar (.Local k)) = some (.Var (.Local k))
    ∧ lift_neutral (fuel + 1) d (.NApp n v)
      = (match lift_neutral fuel d n with
         | none => none
         | some c =>
             match lift fuel d v with
             | none => none
             | some a => some (.App c a)) := by
  refine ⟨?_, rfl, rfl, rfl⟩
  simp [lift_neutral, h]

/-- Witness for C4 at a concrete instance. -/
theorem c4_lift_neutral_spec_witness :
    (1 : Nat) < 3 ∧ lift_neutral 6 3 (.NVar (.Quote 1)) = some (.Bounded 1) :=
  ⟨by decide, (c4_lift_neutral_spec 5 3 1 "g" (.NVar (.Global "g")) .VZero (by decide)).1⟩

/-- C10: quotation never returns an `EvalError` value (it is embedded as
`Option CheckableTerm`, `none` marking a panic): a `Quote(k)` index with
`k ≥ d` makes the `usize` subtraction `d - k - 1` underflow (a panic); a
closure whose body fails on the probe makes the `.expect` call panic under
a `VLam` or a `VPi`, at every fuel; a well-behaved closure quotes
successfully. -/
theorem c10_lift_panic (fuel d k : Nat) (h : d ≤ k) :
    lift_neutral (fuel + 1) d (.NVar (.Quote k)) = none
    ∧ (∀ f, lift f 0 (.VAbs (.mk (.InfereableTerm (.Bounded 5)) [] [])) = none)
    ∧ (∀ f, lift f 0 (.VPi .VNat (.mk (.InfereableTerm (.Bounded 5)) [] [])) = none)
    ∧ lift 10 0 (.VAbs (.mk (.InfereableTerm (.Bounded 0)) [] []))
        = some (.Lambda (.InfereableTerm (.Bounded 0))) := by
  refine ⟨?_, ?_, ?_, rfl⟩
  · simp [lift_neutral, Nat.not_lt.mpr h]
  · intro f
    rcases f with _ | _ | _ | _ | f <;> rfl
  · intro f
    rcases f with _ | _ | _ | _ | f <;> rfl

/-- Witness for C10 at a concrete instance. -/
theorem c10_lift_panic_witness :
    (2 : Nat) ≤ 5 ∧ lift_neutral 4 2 (.NVar (.Quote 5)) = none :=
  ⟨by decide, (c10_lift_panic 3 2 5 (by decide)).1⟩


/-- C7: evaluating `Free(name)` returns the newest binding of `name` in the
value context when one exists (the head of the pushed list wins) and the
stuck value `VNeutral (NFree name)` when none exists; evaluating
`Bounded(i)` returns the i-th most recent entry of the bounded-index stack
and fails with `UnboundVariable` exactly when the stack has fewer than
`i + 1` entries. -/
theorem c7_eval_var_bounded (fuel : Nat) (ctx : EvalCtx) (name : VariableName)
    (v : Value) (e0 : List (VariableName × Value)) (i : Nat) :
    eval (fuel + 1) (.Var name) ctx
      = some (.ok (match ctx.1.find? (fun p => p.1 == name) with
          | some (_, val) => val
          | none => .VNeutral (.NVar name)))
    ∧ eval (fuel + 1) (.Var name) ((name, v) :: e0, ctx.2) = some (.ok v)
    ∧ eval (fuel + 1) (.Bounded i) ctx
      = (match ctx.2[i]? with
         | some val => some (.ok val)
         | none => some (.error (.UnboundVariable
             ("Variable at index " ++ toString i ++ " is not found in the context"))))
    ∧ (i < ctx.2.length ↔ ∃ v', eval (fuel + 1) (.Bounded i) ctx = some (.ok v')) := by
  refine ⟨?_, ?_, rfl, ?_⟩
  · cases h : ctx.1.find? (fun p => p.1 == name) with
    | none => simp [eval, h]
    | some p => cases p; simp [eval, h]
  · simp [eval, List.find?]
  · constructor
    · intro hi
      exact ⟨ctx.2[i], by simp [eval, List.getElem?_eq_getElem hi]⟩
    · rintro ⟨v', hv⟩
      by_contra hge
      rw [Nat.not_lt] at hge
      simp [eval, List.getElem?_eq_none hge] at hv


/-- C2 (counterexample): with `x : A` and `A : Universe` in the typing
context, checking the inferable term `x` against the expected type
`VUniverse` succeeds even though the quoted normal form of the inferred
type (`Free A`) differs from that of the expected type (`Universe`): the
code first chases neutral variables through the typing context via
`lookup`, which the claim omits. -/
theorem c2_lookup_chase_counterexample :
    sanity_check 10 0 (.InfereableTerm (.Var (.Global "x"))) c2Ctx .VUniverse = some (.ok ())
    ∧ type_check 10 0 (.Var (.Global "x")) c2Ctx
        = some (.ok (.VNeutral (.NVar (.Global "A"))))
    ∧ lift 9 0 (.VNeutral (.NVar (.Global "A")))
        = some (.InfereableTerm (.Var (.Global "A")))
    ∧ lift 9 0 .VUniverse = some (.InfereableTerm .Universe)
    ∧ (CheckableTerm.InfereableTerm (.Var (.Global "A")))
        ≠ .InfereableTerm .Universe := by
  refine ⟨rfl, rfl, rfl, rfl, by decide⟩

/-- C2 (amended): checking `Inf(t)` infers a type `v` for `t` and succeeds
exactly when `quote(0, lookup(v))` equals `quote(0, lookup(expected))`,
where `lookup` first resolves neutral free variables through the typing
context (up to 128 unfoldings); when the two quoted forms differ it fails
with `TypeMismatch`. -/
theorem c2_inf_check_amended (fuel d : Nat) (t : Term) (ctx : TypeCtx) (ty : Ty)
    (v : Ty) (lhs rhs : CheckableTerm)
    (h1 : type_check fuel d t ctx = some (.ok v))
    (h2 : lift fuel 0 (lookup v ctx.2 128) = some lhs)
    (h3 : lift fuel 0 (lookup ty ctx.2 128) = some rhs) :
    (sanity_check (fuel + 1) d (.InfereableTerm t) ctx ty = some (.ok ()) ↔ lhs = rhs)
    ∧ (lhs ≠ rhs → sanity_check (fuel + 1) d (.InfereableTerm t) ctx ty
        = some (.error (.TypeMismatch "Type mismatch"))) := by
  have hs : sanity_check (fuel + 1) d (.InfereableTerm t) ctx ty
      = if lhs ≠ rhs then some (.error (.TypeMismatch "Type mismatch"))
        else some (.ok ()) := by
    simp only [sanity_check, h1, h2, h3]
  by_cases h : lhs = rhs
  · simp [h] at hs
    simp [hs, h]
  · simp [h] at hs
    simp [hs, h]

/-- Witness for C2 (amended) at a concrete instance. -/
theorem c2_inf_check_amended_witness :
    type_check 9 0 (.Var (.Global "x")) c2Ctx
        = some (.ok (.VNeutral (.NVar (.Global "A"))))
    ∧ (sanity_check 10 0 (.InfereableTerm (.Var (.Global "x"))) c2Ctx .VUniverse
        = some (.ok ()) ↔ (CheckableTerm.InfereableTerm .Universe)
            = .InfereableTerm .Universe) :=
  ⟨rfl, (c2_inf_check_amended 9 0 (.Var (.Global "x")) c2Ctx .VUniverse
      (.VNeutral (.NVar (.Global "A"))) (.InfereableTerm .Universe)
      (.InfereableTerm .Universe) rfl rfl rfl).1⟩

/-- C8: whenever `handle_statement` returns an error, the returned context
is exactly the context it was given — the typing and value contexts are
extended only after lowering, checking and evaluation have all succeeded,
so the effects of earlier successful statements persist unchanged. -/
theorem c8_error_preserves_ctx (fuel : Nat) (stmt : Statement) (ctx : TypeCtx)
    (e : EvalError) (ctx' : TypeCtx)
    (h : handle_statement fuel stmt ctx = some (.error e, ctx')) : ctx' = ctx := by
  cases stmt <;> simp only [handle_statement] at h <;>
    split at h <;> (try split at h) <;> (try split at h) <;> (try split at h) <;>
    simp_all

/-- Witness for C8 at a concrete erroring statement. -/
theorem c8_error_preserves_ctx_witness :
    handle_statement 10 (.Eval (.Lambda "x" (.Var "x"))) ([], [])
      = some (.error (.ParseError "Cannot parse lambda without type annotation."),
          (([], []) : TypeCtx))
    ∧ (([], []) : TypeCtx) = ([], []) :=
  ⟨rfl, c8_error_preserves_ctx 10 (.Eval (.Lambda "x" (.Var "x"))) ([], [])
      (.ParseError "Cannot parse lambda without type annotation.") ([], []) rfl⟩

/-- Results at a given fuel persist at any larger fuel, jointly for the six
fueled semantic functions. -/
theorem fuel_mono (f : Nat) : ∀ f', f ≤ f' →
    (∀ t ctx r, eval f t ctx = some r → eval f' t ctx = some r)
    ∧ (∀ t ctx r, eval_checked f t ctx = some r → eval_checked f' t ctx = some r)
    ∧ (∀ c x r, clos_call f c x = some r → clos_call f' c x = some r)
    ∧ (∀ a b r, val_app f a b = some r → val_app f' a b = some r)
    ∧ (∀ d v q, lift f d v = some q → lift f' d v = some q)
    ∧ (∀ d n tn, lift_neutral f d n = some tn → lift_neutral f' d n = some tn) := by
  induction f with
  | zero =>
      intro f' _
      refine ⟨?_, ?_, ?_, ?_, ?_, ?_⟩ <;> intro a b c h <;>
        simp [eval, eval_checked, clos_call, val_app, lift, lift_neutral] at h
  | succ f ih =>
      intro f' hf'
      obtain ⟨f'', rfl⟩ : ∃ f'', f' = f'' + 1 := ⟨f' - 1, by omega⟩
      obtain ⟨ihe, ihec, ihcc, ihva, ihl, ihln⟩ := ih f'' (by omega)
      refine ⟨?_, ?_, ?_, ?_, ?_, ?_⟩
      · intro t ctx r h
        cases t with
        | AnnotatedTerm term ty =>
            simp only [eval] at h ⊢
            exact ihec _ _ _ h
        | DependentFunctionSpace arg ret =>
            simp only [eval] at h ⊢
            split at h
            · simp at h
            · rename_i heq; rw [ihec _ _ _ heq]; exact h
            · rename_i heq; rw [ihec _ _ _ heq]; exact h
        | Var x => simp only [eval] at h ⊢; exact h
        | Bounded idx => simp only [eval] at h ⊢; exact h
        | App clos arg =>
            simp only [eval] at h ⊢
            split at h
            · simp at h
            · rename_i heq; rw [ihe _ _ _ heq]; exact h
            · rename_i heq
              rw [ihe _ _ _ heq]
              split at h
              · simp at h
              · rename_i heq2; rw [ihec _ _ _ heq2]; exact h
              · rename_i heq2; rw [ihec _ _ _ heq2]; exact ihva _ _ _ h
        | Universe => simp only [eval] at h ⊢; exact h
        | Zero => simp only [eval] at h ⊢; exact h
        | Nat => simp only [eval] at h ⊢; exact h
        | Succ pred =>
            simp only [eval] at h ⊢
            split at h
            · simp at h
            · rename_i heq; rw [ihe _ _ _ heq]; exact h
            · rename_i heq; rw [ihe _ _ _ heq]; exact h
      · intro t ctx r h
        cases t with
        | InfereableTerm term => simp only [eval_checked] at h ⊢; exact ihe _ _ _ h
        | Lambda term => simp only [eval_checked] at h ⊢; exact h
        | Succ term =>
            simp only [eval_checked] at h ⊢
            split at h
            · simp at h
            · rename_i heq; rw [ihec _ _ _ heq]; exact h
            · rename_i heq; rw [ihec _ _ _ heq]; exact h
        | Zero => simp only [eval_checked] at h ⊢; exact h
      · intro c x r h
        cases c with
        | mk term env0 env1 =>
            simp only [clos_call] at h ⊢
            exact ihec _ _ _ h
      · intro a b r h
        cases a <;> simp only [val_app] at h ⊢
        case VAbs c => exact ihcc _ _ _ h
        all_goals exact h
      · intro d v q h
        cases v with
        | VAbs clos =>
            simp only [lift] at h ⊢
            split at h
            · rename_i body heq
              simp only [ihcc _ _ _ heq]
              split at h
              · rename_i heq2; rw [ihl _ _ _ heq2]; exact h
              · simp at h
            · simp at h
        | VNeutral n =>
            simp only [lift] at h ⊢
            split at h
            · rename_i heq; rw [ihln _ _ _ heq]; exact h
            · simp at h
        | VUniverse => simp only [lift] at h ⊢; exact h
        | VPi val body =>
            simp only [lift] at h ⊢
            split at h
            · simp at h
            · rename_i heq
              rw [ihl _ _ _ heq]
              split at h
              · rename_i heq2
                simp only [ihcc _ _ _ heq2]
                split at h
                · rename_i heq3; rw [ihl _ _ _ heq3]; exact h
                · simp at h
              · simp at h
        | VNat => simp only [lift] at h ⊢; exact h
        | VZero => simp only [lift] at h ⊢; exact h
        | VSucc pred =>
            simp only [lift] at h ⊢
            split at h
            · rename_i heq; rw [ihl _ _ _ heq]; exact h
            · simp at h
      · intro d n tn h
        cases n with
        | NApp clos arg =>
            simp only [lift_neutral] at h ⊢
            split at h
            · simp at h
            · rename_i heq
              rw [ihln _ _ _ heq]
              split at h
              · simp at h
              · rename_i heq2; rw [ihl _ _ _ heq2]; exact h
        | NVar name => simp only [lift_neutral] at h ⊢; exact h

theorem eval_checked_mono {f f' : Nat} (h : f ≤ f') {t ctx r}
    (he : eval_checked f t ctx = some r) : eval_checked f' t ctx = some r :=
  (fuel_mono f f' h).2.1 t ctx r he

theorem clos_call_mono {f f' : Nat} (h : f ≤ f') {c x r}
    (he : clos_call f c x = some r) : clos_call f' c x = some r :=
  (fuel_mono f f' h).2.2.1 c x r he

theorem eval_mono {f f' : Nat} (h : f ≤ f') {t ctx r}
    (he : eval f t ctx = some r) : eval f' t ctx = some r :=
  (fuel_mono f f' h).1 t ctx r he

theorem lift_mono {f f' : Nat} (h : f ≤ f') {d v q}
    (he : lift f d v = some q) : lift f' d v = some q :=
  (fuel_mono f f' h).2.2.2.2.1 d v q he

theorem lift_neutral_mono {f f' : Nat} (h : f ≤ f') {d n tn}
    (he : lift_neutral f d n = some tn) : lift_neutral f' d n = some tn :=
  (fuel_mono f f' h).2.2.2.2.2 d n tn he


theorem probe_stack_getElem {d k : Nat} (h : k < d) :
    (probe_stack d)[d - k - 1]? = some (.VNeutral (.NVar (.Quote k))) := by
  induction d with
  | zero => omega
  | succ d ih =>
      by_cases hk : k = d
      · subst hk
        have h0 : k + 1 - k - 1 = 0 := by omega
        rw [h0]
        simp [probe_stack]
      · have hk' : k < d := by omega
        have : d + 1 - k - 1 = (d - k - 1) + 1 := by omega
        rw [this]
        simpa [probe_stack] using ih hk'

theorem lift_vabs_eq {f d : Nat} {c : Clos} {body : Value} {t : CheckableTerm}
    (h1 : clos_call f c (.VNeutral (.NVar (.Quote d))) = some (.ok body))
    (h2 : lift f (d + 1) body = some t) :
    lift (f + 1) d (.VAbs c) = some (.Lambda t) := by
  simp only [lift, h1, h2]

theorem lift_vpi_eq {f d : Nat} {val : Value} {body : Clos} {b : Value}
    {argq retq : CheckableTerm}
    (h1 : lift f d val = some argq)
    (h2 : clos_call f body (.VNeutral (.NVar (.Quote d))) = some (.ok b))
    (h3 : lift f (d + 1) b = some retq) :
    lift (f + 1) d (.VPi val body)
      = some (.InfereableTerm (.DependentFunctionSpace argq retq)) := by
  simp only [lift, h1, h2, h3]

theorem lift_neutral_napp_eq {f d : Nat} {n : Neutral} {v : Value}
    {c : Term} {a : CheckableTerm}
    (h1 : lift_neutral f d n = some c) (h2 : lift f d v = some a) :
    lift_neutral (f + 1) d (.NApp n v) = some (.App c a) := by
  simp only [lift_neutral, h1, h2]

theorem eval_checked_inf_eq {f : Nat} {t : Term} {ctx : EvalCtx} :
    eval_checked (f + 1) (.InfereableTerm t) ctx = eval f t ctx := rfl

theorem eval_dfs_eq {f : Nat} {arg ret : CheckableTerm} {ctx : EvalCtx} {w : Value}
    (h : eval_checked f arg ctx = some (.ok w)) :
    eval (f + 1) (.DependentFunctionSpace arg ret) ctx
      = some (.ok (.VPi w (.mk ret ctx.1 ctx.2))) := by
  simp only [eval, h]

theorem eval_app_eq {f : Nat} {c : Term} {a : CheckableTerm} {ctx : EvalCtx}
    {cv av : Value} {r : Except EvalError Value}
    (h1 : eval f c ctx = some (.ok cv))
    (h2 : eval_checked f a ctx = some (.ok av))
    (h3 : val_app f cv av = some r) :
    eval (f + 1) (.App c a) ctx = some r := by
  simp only [eval, h1, h2, h3]

theorem eval_bounded_eq {f i : Nat} {ctx : EvalCtx} {v : Value}
    (h : ctx.2[i]? = some v) :
    eval (f + 1) (.Bounded i) ctx = some (.ok v) := by
  simp only [eval, h]

/-- Joint quote–eval roundtrip: a term produced by quotation at depth `d`,
re-evaluated under the probe stack for depth `d`, yields a value that quotes
back to the very same term. -/
theorem lift_eval_roundtrip (f : Nat) :
    (∀ d v q, lift f d v = some q →
      ∃ F w, eval_checked F q ([], probe_stack d) = some (.ok w)
        ∧ lift F d w = some q)
    ∧ (∀ d n tn, lift_neutral f d n = some tn →
      ∃ F m, eval F tn ([], probe_stack d) = some (.ok (.VNeutral m))
        ∧ lift_neutral F d m = some tn) := by
  induction f with
  | zero =>
      constructor <;> intro d x q h <;> simp [lift, lift_neutral] at h
  | succ f ih =>
      obtain ⟨ihv, ihn⟩ := ih
      constructor
      · intro d v q h
        cases v with
        | VAbs clos =>
            simp only [lift] at h
            split at h
            · rename_i body heq
              split at h
              · rename_i t heq2
                injection h with h; subst h
                obtain ⟨F, w', hev, hlift⟩ := ihv (d + 1) body t heq2
                have hlift' := lift_mono (Nat.le_succ F) hlift
                have hcc : clos_call (F + 1) (.mk t [] (probe_stack d))
                    (.VNeutral (.NVar (.Quote d))) = some (.ok w') := by
                  simp only [clos_call]
                  exact hev
                exact ⟨F + 2, .VAbs (.mk t [] (probe_stack d)), rfl,
                  lift_vabs_eq hcc hlift'⟩
              · simp at h
            · simp at h
        | VNeutral n =>
            simp only [lift] at h
            split at h
            · rename_i tn heq
              injection h with h; subst h
              obtain ⟨F, m, hev, hln⟩ := ihn d n tn heq
              refine ⟨F + 1, .VNeutral m, ?_, ?_⟩
              · simp only [eval_checked]
                exact hev
              · simp only [lift, hln]
            · simp at h
        | VUniverse =>
            simp only [lift] at h
            injection h with h; subst h
            exact ⟨2, .VUniverse, rfl, rfl⟩
        | VPi val body =>
            simp only [lift] at h
            split at h
            · simp at h
            · rename_i argq heq
              split at h
              · rename_i b heq2
                split at h
                · rename_i retq heq3
                  injection h with h; subst h
                  obtain ⟨F1, w1, hev1, hl1⟩ := ihv d val argq heq
                  obtain ⟨F2, w2, hev2, hl2⟩ := ihv (d + 1) b retq heq3
                  have hl1' := lift_mono (show F1 ≤ max F1 F2 + 2 by omega) hl1
                  have hl2' := lift_mono (show F2 ≤ max F1 F2 + 2 by omega) hl2
                  have hcc : clos_call (max F1 F2 + 2) (.mk retq [] (probe_stack d))
                      (.VNeutral (.NVar (.Quote d))) = some (.ok w2) := by
                    simp only [clos_call]
                    exact eval_checked_mono (by omega) hev2
                  refine ⟨max F1 F2 + 3, .VPi w1 (.mk retq [] (probe_stack d)), ?_, ?_⟩
                  · rw [eval_checked_inf_eq]
                    exact eval_dfs_eq (eval_checked_mono
                      (show F1 ≤ max F1 F2 + 1 by omega) hev1)
                  · exact lift_vpi_eq hl1' hcc hl2'
                · simp at h
              · simp at h
        | VNat =>
            simp only [lift] at h
            injection h with h; subst h
            exact ⟨2, .VNat, rfl, rfl⟩
        | VZero =>
            simp only [lift] at h
            injection h with h; subst h
            exact ⟨1, .VZero, rfl, rfl⟩
        | VSucc pred =>
            simp only [lift] at h
            split at h
            · rename_i pt heq
              injection h with h; subst h
              obtain ⟨F, w1, hev1, hl1⟩ := ihv d pred pt heq
              refine ⟨F + 1, .VSucc w1, ?_, ?_⟩
              · simp only [eval_checked, hev1]
              · simp only [lift, hl1]
            · simp at h
      · intro d n tn h
        cases n with
        | NVar name =>
            cases name with
            | Quote k =>
                simp only [lift_neutral] at h
                split at h
                · rename_i hk
                  injection h with h; subst h
                  refine ⟨2, .NVar (.Quote k), ?_, ?_⟩
                  · simp only [eval]
                    rw [probe_stack_getElem hk]
                  · simp only [lift_neutral]
                    rw [if_pos hk]
                · simp at h
            | Global s =>
                simp only [lift_neutral] at h
                injection h with h; subst h
                exact ⟨2, .NVar (.Global s), rfl, rfl⟩
            | Local k =>
                simp only [lift_neutral] at h
                injection h with h; subst h
                exact ⟨2, .NVar (.Local k), rfl, rfl⟩
        | NApp nn v =>
            simp only [lift_neutral] at h
            split at h
            · simp at h
            · rename_i c heq
              split at h
              · simp at h
              · rename_i a heq2
                injection h with h; subst h
                obtain ⟨F1, m1, hev1, hln1⟩ := ihn d nn c heq
                obtain ⟨F2, w2, hev2, hl2⟩ := ihv d v a heq2
                have h1 := eval_mono (show F1 ≤ max F1 F2 + 1 by omega) hev1
                have h2 := eval_checked_mono (show F2 ≤ max F1 F2 + 1 by omega) hev2
                have h3 := lift_neutral_mono (show F1 ≤ max F1 F2 + 1 by omega) hln1
                have h4 := lift_mono (show F2 ≤ max F1 F2 + 1 by omega) hl2
                refine ⟨max F1 F2 + 2, .NApp m1 w2, ?_, ?_⟩
                · exact eval_app_eq h1 h2 rfl
                · exact lift_neutral_napp_eq h3 h4

theorem eval_checked_det {f f' : Nat} {t ctx r r'}
    (h : eval_checked f t ctx = some r) (h' : eval_checked f' t ctx = some r') :
    r = r' := by
  have h1 := eval_checked_mono (Nat.le_max_left f f') h
  have h2 := eval_checked_mono (Nat.le_max_right f f') h'
  rw [h1] at h2
  injection h2 with h2

theorem lift_det {f f' : Nat} {d v q q'}
    (h : lift f d v = some q) (h' : lift f' d v = some q') : q = q' := by
  have h1 := lift_mono (Nat.le_max_left f f') h
  have h2 := lift_mono (Nat.le_max_right f f') h'
  rw [h1] at h2
  injection h2 with h2

/-- C6: quote–eval round trip (idempotence of normal forms).  For a closed
term that type-checks in the empty context, whose evaluation succeeds and
whose value quotes (at depth 0) to `q`, re-evaluating `q` in the empty
environment succeeds and quoting the result yields exactly `q` again; and
every successful re-evaluation/re-quotation at any fuel yields the same `q`. -/
theorem c6_quote_eval_idempotent (t : Term) (f1 f2 f3 : Nat) (ty : Ty) (v : Value)
    (q : CheckableTerm)
    (_htc : type_check f1 0 t ([], []) = some (.ok ty))
    (_hev : eval f2 t ([], []) = some (.ok v))
    (hq : lift f3 0 v = some q) :
    (∃ F v', eval_checked F q ([], []) = some (.ok v') ∧ lift F 0 v' = some q)
    ∧ ∀ F2 v2 F3 q2, eval_checked F2 q ([], []) = some (.ok v2) →
        lift F3 0 v2 = some q2 → q2 = q := by
  obtain ⟨F, w, h1, h2⟩ := (lift_eval_roundtrip f3).1 0 v q hq
  refine ⟨⟨F, w, h1, h2⟩, ?_⟩
  intro F2 v2 F3 q2 he2 hl2
  have hv : Except.ok (ε := EvalError) v2 = .ok w := eval_checked_det he2 h1
  injection hv with hv
  subst hv
  exact lift_det hl2 h2

/-- Witness for C6 at the concrete closed term `Zero`. -/
theorem c6_quote_eval_idempotent_witness :
    type_check 1 0 .Zero ([], []) = some (.ok .VNat)
    ∧ eval 1 .Zero ([], []) = some (.ok .VZero)
    ∧ lift 1 0 .VZero = some .Zero
    ∧ ((∃ F v', eval_checked F .Zero ([], []) = some (.ok v')
          ∧ lift F 0 v' = some .Zero)
        ∧ ∀ F2 v2 F3 q2, eval_checked F2 .Zero ([], []) = some (.ok v2) →
            lift F3 0 v2 = some q2 → q2 = .Zero) :=
  ⟨rfl, rfl, rfl, c6_quote_eval_idempotent .Zero 1 1 1 .VNat .VZero .Zero rfl rfl rfl⟩
